import Mathlib

/-!
Verification of the group quantization core in csrc/includes/quantization_utils.h.

Shallow embedding conventions:
* Half-precision and single-precision floating point values are modelled by
  exact rationals (ℚ).  Every numeric scenario appearing in the claims uses
  values on which the C floating point arithmetic is exact, so the rational
  model agrees with the source on those inputs.
* A __half2 pair is modelled as ℚ × ℚ; a buffer of halves as a function ℕ → ℚ.
* int32_t values are modelled as ℤ (no claim exercises 32-bit overflow);
  the int8_t cast at the end of quantize is modelled by reduction into
  [-128, 127] (two's complement wrap-around).
* The -inf / +inf initial accumulators of GroupStats are modelled with
  Option ℚ: none is the initial (infinite) accumulator, and updating none
  with x yields some x, exactly as max(-inf, x) = x.
* Output byte buffers are modelled as functions ℕ → ℤ whose cells hold the
  byte value reduced modulo 256 into [0, 256).
-/

namespace Quantize

/-- Bytes of input handled by one chunk (constexpr granularity = 16). -/
def granularity : ℕ := 16

/-- Half-precision elements per 16-byte load: granularity / sizeof(__half) = 8. -/
def h_per_load : ℕ := granularity / 2

/-- Half2 pairs per 16-byte load: granularity / sizeof(__half2) = 4. -/
def h2_per_load : ℕ := granularity / 4

/-- Modelled from the spec: conversion::to<int32_t> from conversion_utils.h is
not under src/; the spec describes the float-to-int conversion primitive as a
truncating conversion, so it is modelled as truncation toward zero
(floor for nonnegative arguments, ceiling for negative ones; the negative
branch is written -⌊-q⌋, which equals ⌈q⌉). -/
def toInt32 (q : ℚ) : ℤ := if 0 ≤ q then ⌊q⌋ else -⌊-q⌋

/-- Model of the C cast (int8_t)n: two's complement wrap-around into [-128, 127]. -/
def toInt8 (n : ℤ) : ℤ := (n + 128) % 256 - 128

/-- Model of min(max(x, lo), hi) as written in the quantize members. -/
def clampQ (lo hi x : ℤ) : ℤ := min (max x lo) hi

/-- Lower end of the quantized integer domain: -(1 << (numBits - 1)). -/
def q_min (numBits : ℕ) : ℤ := -(2 ^ (numBits - 1))

/-- Upper end of the quantized integer domain: (1 << (numBits - 1)) - 1. -/
def q_max (numBits : ℕ) : ℤ := 2 ^ (numBits - 1) - 1

/-- Running-max update against a possibly still infinite accumulator:
max(-inf, x) = x, max(some y, x) = max y x. -/
def wmax (a : Option ℚ) (x : ℚ) : Option ℚ := some (a.elim x fun y => max y x)

/-- Running-min update against a possibly still infinite accumulator. -/
def wmin (a : Option ℚ) (x : ℚ) : Option ℚ := some (a.elim x fun y => min y x)

/-- GroupStats<Type::Symmetric>::update (also GroupStats<Type::IntegerSymmetric>::update,
whose class body is textually identical in the source): fold __habs2(val) into
cur_max with an elementwise (per-lane) max. -/
def symStatsUpdate (acc : Option ℚ × Option ℚ) (v : ℚ × ℚ) : Option ℚ × Option ℚ :=
  (wmax acc.1 |v.1|, wmax acc.2 |v.2|)

/-- Per-unit serial scan of GroupStats<Symmetric> over a list of __half2 values,
starting from the constructor state cur_max = reduce::init<Max> (-inf lanes). -/
def symStatsScan (l : List (ℚ × ℚ)) : Option ℚ × Option ℚ :=
  l.foldl symStatsUpdate (none, none)

/-- Lane merge performed at the start of GroupStats::reduce: the two lanes of
cur_max are combined with a scalar max (conversion::to<float2> then
reduce::element<Max> on .x and .y). -/
def laneMax (acc : Option ℚ × Option ℚ) : Option ℚ :=
  match acc with
  | (none, b) => b
  | (some x, none) => some x
  | (some x, some y) => some (max x y)

/-- Lane merge for a min accumulator pair. -/
def laneMin (acc : Option ℚ × Option ℚ) : Option ℚ :=
  match acc with
  | (none, b) => b
  | (some x, none) => some x
  | (some x, some y) => some (min x y)

/-- Finalized max statistic of a Symmetric (or IntegerSymmetric) group: scan the
group's elements, then merge the two lanes, as GroupStats::reduce does.  The
cross-unit block reduction extends the same max over every unit's scan, so a
group is represented by the single list of all its half2 values. -/
def symStatsFinalize (l : List (ℚ × ℚ)) : Option ℚ := laneMax (symStatsScan l)

/-- GroupStats<Type::Asymmetric>::update: elementwise max into cur_max and
elementwise min into cur_min (no absolute value). -/
def asymStatsUpdate (acc : (Option ℚ × Option ℚ) × (Option ℚ × Option ℚ)) (v : ℚ × ℚ) :
    (Option ℚ × Option ℚ) × (Option ℚ × Option ℚ) :=
  ((wmax acc.1.1 v.1, wmax acc.1.2 v.2), (wmin acc.2.1 v.1, wmin acc.2.2 v.2))

/-- Per-unit serial scan of GroupStats<Asymmetric>, from cur_max = -inf lanes
and cur_min = +inf lanes. -/
def asymStatsScan (l : List (ℚ × ℚ)) : (Option ℚ × Option ℚ) × (Option ℚ × Option ℚ) :=
  l.foldl asymStatsUpdate ((none, none), (none, none))

/-- Finalized (max, min) statistics of an Asymmetric group. -/
def asymStatsFinalize (l : List (ℚ × ℚ)) : Option ℚ × Option ℚ :=
  (laneMax (asymStatsScan l).1, laneMin (asymStatsScan l).2)

/-- Params<Type::Symmetric, numBits>: the single scale field. -/
structure SymParams where
  scale : ℚ
deriving DecidableEq

/-- Params<Type::Symmetric, numBits>::Params(stats): scale = 1.0 when
stats.max == 0, otherwise (1 << numBits) / (2 * stats.max). -/
def symParamsOfStats (numBits : ℕ) (statsMax : ℚ) : SymParams :=
  if statsMax = 0 then ⟨1⟩ else ⟨(2 ^ numBits : ℚ) / (2 * statsMax)⟩

/-- Params<Type::Symmetric, numBits>::quantize: scale, truncate to int32,
clamp to [q_min, q_max], cast to int8_t. -/
def symQuantize (numBits : ℕ) (p : SymParams) (val : ℚ) : ℤ :=
  toInt8 (clampQ (q_min numBits) (q_max numBits) (toInt32 (val * p.scale)))

/-- Params<Type::IntegerSymmetric, numBits>: the single int32 scale field. -/
structure IntSymParams where
  scale : ℤ
deriving DecidableEq

/-- Params<Type::IntegerSymmetric, numBits>::Params(stats):
scale = conversion::to<int32_t>(stats.max + 0.5f), with no degenerate-case
fallback branch. -/
def intSymParamsOfStats (statsMax : ℚ) : IntSymParams :=
  ⟨toInt32 (statsMax + 1 / 2)⟩

/-- Params<Type::IntegerSymmetric, numBits>::quantize: multiply by q_max,
divide by the float image of the integer scale, truncate, cast to int8_t —
with no clamp.  (Rationals have 0 / 0 = 0 where C would produce a NaN; no
claim is settled at a zero scale.) -/
def intSymQuantize (numBits : ℕ) (p : IntSymParams) (val : ℚ) : ℤ :=
  toInt8 (toInt32 (val * (q_max numBits : ℚ) / (p.scale : ℚ)))

/-- Params<Type::Asymmetric, numBits>: scale and offset fields. -/
structure AsymParams where
  scale : ℚ
  offset : ℚ
deriving DecidableEq

/-- Params<Type::Asymmetric, numBits>::Params(stats): scale = 1.0 when
stats.max == stats.min, else (1 << numBits) / (max - min); then
offset = -(1 << (numBits - 1)) - stats.min * scale. -/
def asymParamsOfStats (numBits : ℕ) (mx mn : ℚ) : AsymParams :=
  ⟨if mx = mn then 1 else (2 ^ numBits : ℚ) / (mx - mn),
   -((2 : ℚ) ^ (numBits - 1)) - mn * (if mx = mn then 1 else (2 ^ numBits : ℚ) / (mx - mn))⟩

/-- Params<Type::Asymmetric, numBits>::quantize: affine transform, truncate,
clamp to [q_min, q_max], cast to int8_t. -/
def asymQuantize (numBits : ℕ) (p : AsymParams) (val : ℚ) : ℤ :=
  toInt8 (clampQ (q_min numBits) (q_max numBits) (toInt32 (val * p.scale + p.offset)))

/-- Cell of the output parameter buffer.  Symmetric and Asymmetric store
floats; IntegerSymmetric stores the raw bits of its int32 scale into a float
slot, modelled as a tagged integer word. -/
inductive ParamWord where
  | f : ℚ → ParamWord
  | i : ℤ → ParamWord
deriving DecidableEq

/-- Params<Type::Symmetric, numBits>::store: one float, 1 / scale, written at
index group_index (stride 1). -/
def symStore (p : SymParams) (params : ℕ → ParamWord) (group_index : ℕ) : ℕ → ParamWord :=
  Function.update params group_index (ParamWord.f (1 / p.scale))

/-- Params<Type::IntegerSymmetric, numBits>::store: the raw integer scale
written at index group_index (stride 1). -/
def intSymStore (p : IntSymParams) (params : ℕ → ParamWord) (group_index : ℕ) : ℕ → ParamWord :=
  Function.update params group_index (ParamWord.i p.scale)

/-- Params<Type::Asymmetric, numBits>::store: 1 / scale at index
2 * group_index, then offset at index 2 * group_index + 1 (stride 2). -/
def asymStore (p : AsymParams) (params : ℕ → ParamWord) (group_index : ℕ) : ℕ → ParamWord :=
  Function.update (Function.update params (2 * group_index) (ParamWord.f (1 / p.scale)))
    (2 * group_index + 1) (ParamWord.f p.offset)

/-- Byte value (in [0, 256)) of an int8_t code stored into the output buffer. -/
def toByte (c : ℤ) : ℤ := c % 256

/-- Modelled from the spec: struct PackedInt4 comes from quantization.h, which
is not under src/.  Per the spec's packing-layout statement (higher-index
element of the pair in the high nibble; the source initializes the struct as
PackedInt4{second_code, first_code}), its first field occupies the high nibble
and its second field the low nibble of the produced byte.  Each field keeps
the low 4 bits (two's complement nibble) of its code. -/
def packByte (hi lo : ℤ) : ℤ := (hi % 16) * 16 + (lo % 16)

/-- Low nibble of a byte value. -/
def lowNibble (b : ℤ) : ℤ := b % 16

/-- High nibble of a byte value. -/
def highNibble (b : ℤ) : ℤ := (b / 16) % 16

/-- Signed value encoded by a two's complement nibble in [0, 16). -/
def nibbleVal (n : ℤ) : ℤ := if n < 8 then n else n - 16

/-- Elements of a 16-byte chunk: constexpr elems = 16 / sizeof(__half) = 8. -/
def chunkElems : ℕ := 16 / 2

/-- num_ele_int8 in local_array / num_elems_packed in _chunk: 8 / numBits. -/
def num_ele_int8 (numBits : ℕ) : ℕ := 8 / numBits

/-- num_int8_out: output bytes per chunk per unit, h_per_load / num_ele_int8. -/
def num_int8_out (numBits : ℕ) : ℕ := h_per_load / num_ele_int8 numBits

/-- The _chunk kernel: quantizes the 8 halves data 0 .. data 7 of one 16-byte
chunk with an arbitrary mode's quantize member (the template is generic in
qType), producing one byte per element when num_elems_packed = 1 (8-bit) and
one packed byte per pair when num_elems_packed = 2 (4-bit); in the packed
byte the first PackedInt4 field is quantize(data[i + 1]) and the second is
quantize(data[i]). -/
def chunkOut (numBits : ℕ) (q : ℚ → ℤ) (data : ℕ → ℚ) : List ℤ :=
  if num_ele_int8 numBits = 1 then
    (List.range chunkElems).map fun i => toByte (q (data i))
  else
    (List.range (chunkElems / 2)).map fun oi =>
      packByte (q (data (2 * oi + 1))) (q (data (2 * oi)))

/-- mem_access::store_global of a run of bytes at consecutive addresses. -/
def storeBytes (addr : ℕ) (bytes : List ℤ) (out : ℕ → ℤ) : ℕ → ℤ :=
  match bytes with
  | [] => out
  | b :: rest => storeBytes (addr + 1) rest (Function.update out addr b)

/-- stride in local_array: tb.size() * h_per_load / num_ele_int8. -/
def quantStride (numBits T : ℕ) : ℕ := T * h_per_load / num_ele_int8 numBits

/-- base_offset in local_array: (block_offset + elem_offset) / num_ele_int8
with block_offset = group_index * elems_per_group and
elem_offset = thread_index * h_per_load. -/
def baseOffset (numBits g epg t : ℕ) : ℕ :=
  (g * epg + t * h_per_load) / num_ele_int8 numBits

/-- Packing loop of the precomputed-parameters local_array, for one unit,
over an explicit list of chunk indices: chunk i is quantized and its bytes
stored at base_offset + i * stride only when
elem_offset + i * stride * num_ele_int8 < elems_per_group; otherwise the
chunk performs no write at all. -/
def localArrayChunks (numBits T t g epg : ℕ) (q : ℚ → ℤ) (buf : ℕ → ℚ) :
    List ℕ → (ℕ → ℤ) → (ℕ → ℤ)
  | [], out => out
  | i :: rest, out =>
      localArrayChunks numBits T t g epg q buf rest
        (if t * h_per_load + i * quantStride numBits T * num_ele_int8 numBits < epg then
          storeBytes (baseOffset numBits g epg t + i * quantStride numBits T)
            (chunkOut numBits q fun k => buf (i * h_per_load + k)) out
        else out)

/-- Output-data effect of the precomputed-parameters local_array for one unit:
its numChunks chunks processed in index order. -/
def localArrayPre (numBits T t g epg nC : ℕ) (q : ℚ → ℤ) (buf : ℕ → ℚ)
    (out : ℕ → ℤ) : ℕ → ℤ :=
  localArrayChunks numBits T t g epg q buf (List.range nC) out

theorem toInt32_ge (c : ℤ) (q : ℚ) (hc : 0 ≤ c) (h : (c : ℚ) < q) : c ≤ toInt32 q := by
  have h0 : (0 : ℚ) ≤ q := le_trans (by exact_mod_cast hc) h.le
  rw [toInt32, if_pos h0]
  exact Int.le_floor.mpr h.le

theorem toInt32_le (c : ℤ) (q : ℚ) (hc : c ≤ 0) (h : q < (c : ℚ)) : toInt32 q ≤ c := by
  have h0 : ¬ (0 : ℚ) ≤ q := by
    push_neg
    calc q < (c : ℚ) := h
    _ ≤ 0 := by exact_mod_cast hc
  rw [toInt32, if_neg h0]
  have hceil : -⌊-q⌋ = ⌈q⌉ := by rw [Int.floor_neg, neg_neg]
  rw [hceil]
  exact Int.ceil_le.mpr h.le

theorem clamp_toInt8_high (lo hi t : ℤ) (hlo : -128 ≤ lo) (hhi : hi ≤ 127)
    (hlohi : lo ≤ hi) (ht : hi ≤ t) : toInt8 (clampQ lo hi t) = hi := by
  rw [clampQ, max_eq_left (le_trans hlohi ht), min_eq_right ht, toInt8]
  omega

theorem clamp_toInt8_low (lo hi t : ℤ) (hlo : -128 ≤ lo) (hhi : hi ≤ 127)
    (hlohi : lo ≤ hi) (ht : t ≤ lo) : toInt8 (clampQ lo hi t) = lo := by
  rw [clampQ, max_eq_right ht, min_eq_left hlohi, toInt8]
  omega

theorem symStatsFoldl_zero (l : List (ℚ × ℚ)) (h : ∀ v ∈ l, v = (0, 0)) :
    l.foldl symStatsUpdate (some 0, some 0) = (some 0, some 0) := by
  induction l with
  | nil => rfl
  | cons v t ih =>
      have hv : v = (0, 0) := h v (List.mem_cons_self v t)
      have hstep : symStatsUpdate (some 0, some 0) v = (some 0, some 0) := by
        subst hv
        simp [symStatsUpdate, wmax]
      rw [List.foldl_cons, hstep]
      exact ih fun w hw => h w (List.mem_cons_of_mem v hw)

theorem asymStatsFoldl_const (c : ℚ) (l : List (ℚ × ℚ)) (h : ∀ v ∈ l, v = (c, c)) :
    l.foldl asymStatsUpdate ((some c, some c), (some c, some c)) =
      ((some c, some c), (some c, some c)) := by
  induction l with
  | nil => rfl
  | cons v t ih =>
      have hv : v = (c, c) := h v (List.mem_cons_self v t)
      have hstep : asymStatsUpdate ((some c, some c), (some c, some c)) v =
          ((some c, some c), (some c, some c)) := by
        subst hv
        simp [asymStatsUpdate, wmax, wmin]
      rw [List.foldl_cons, hstep]
      exact ih fun w hw => h w (List.mem_cons_of_mem v hw)

/-- For a nonempty all-zero group the finalized max-abs statistic is 0 and the
Symmetric Params constructor resolves scale to exactly 1.0, but the
IntegerSymmetric constructor has no degenerate fallback: it resolves its
integer scale to trunc(0 + 0.5) = 0, not 1. -/
theorem c1_zero_group_params (numBits : ℕ) (l : List (ℚ × ℚ)) (hne : l ≠ [])
    (hz : ∀ v ∈ l, v = (0, 0)) :
    symStatsFinalize l = some 0 ∧ (symParamsOfStats numBits 0).scale = 1 ∧
    (intSymParamsOfStats 0).scale = 0 := by
  refine ⟨?_, ?_, ?_⟩
  · cases l with
    | nil => exact absurd rfl hne
    | cons v t =>
        have hv : v = (0, 0) := hz v (List.mem_cons_self v t)
        have hstep : symStatsUpdate (none, none) v = (some 0, some 0) := by
          subst hv
          simp [symStatsUpdate, wmax]
        rw [symStatsFinalize, symStatsScan, List.foldl_cons, hstep,
          symStatsFoldl_zero t fun w hw => hz w (List.mem_cons_of_mem v hw)]
        simp [laneMax]
  · simp [symParamsOfStats]
  · norm_num [intSymParamsOfStats, toInt32]

/-- Witness for c1_zero_group_params at the concrete all-zero group [(0, 0)]. -/
theorem c1_zero_group_params_witness :
    symStatsFinalize [((0 : ℚ), (0 : ℚ))] = some 0 ∧
    (symParamsOfStats 8 0).scale = 1 ∧ (intSymParamsOfStats 0).scale = 0 :=
  c1_zero_group_params 8 [((0 : ℚ), (0 : ℚ))] (by simp) (by simp)

/-- Counterexample to the claim that the IntegerSymmetric constructor also
resolves scale to 1.0 on an all-zero group: the finalized statistic of the
group [(0, 0)] is 0, and the constructor turns it into integer scale 0. -/
theorem c1_integer_symmetric_counterexample :
    symStatsFinalize [((0 : ℚ), (0 : ℚ))] = some 0 ∧
    (intSymParamsOfStats 0).scale ≠ 1 := by
  constructor
  · norm_num [symStatsFinalize, symStatsScan, symStatsUpdate, laneMax, wmax]
  · norm_num [intSymParamsOfStats, toInt32]

/-- For a nonempty constant Asymmetric group every element c gives finalized
statistics max = min = c, the constructor resolves scale to exactly 1.0, and
quantize at the constant value returns the minimum code q_min (which the
stored offset maps back to c), not the midpoint of the integer domain. -/
theorem c2_const_group (numBits : ℕ) (hb : numBits = 4 ∨ numBits = 8) (c : ℚ)
    (l : List (ℚ × ℚ)) (hne : l ≠ []) (hc : ∀ v ∈ l, v = (c, c)) :
    asymStatsFinalize l = (some c, some c) ∧
    (asymParamsOfStats numBits c c).scale = 1 ∧
    asymQuantize numBits (asymParamsOfStats numBits c c) c = q_min numBits := by
  refine ⟨?_, ?_, ?_⟩
  · cases l with
    | nil => exact absurd rfl hne
    | cons v t =>
        have hv : v = (c, c) := hc v (List.mem_cons_self v t)
        have hstep : asymStatsUpdate ((none, none), (none, none)) v =
            ((some c, some c), (some c, some c)) := by
          subst hv
          simp [asymStatsUpdate, wmax, wmin]
        rw [asymStatsFinalize, asymStatsScan, List.foldl_cons, hstep,
          asymStatsFoldl_const c t fun w hw => hc w (List.mem_cons_of_mem v hw)]
        simp [laneMax, laneMin]
  · simp [asymParamsOfStats]
  · have harg : c * 1 + (-((2 : ℚ) ^ (numBits - 1)) - c * 1) = -((2 : ℚ) ^ (numBits - 1)) := by
      ring
    rcases hb with rfl | rfl <;>
      norm_num [asymQuantize, asymParamsOfStats, harg, toInt32, toInt8, clampQ,
        q_min, q_max]

/-- Witness for c2_const_group at the concrete constant group [(5, 5)]. -/
theorem c2_const_group_witness :
    asymStatsFinalize [((5 : ℚ), (5 : ℚ))] = (some 5, some 5) ∧
    (asymParamsOfStats 8 5 5).scale = 1 ∧
    asymQuantize 8 (asymParamsOfStats 8 5 5) 5 = q_min 8 :=
  c2_const_group 8 (Or.inr rfl) 5 [((5 : ℚ), (5 : ℚ))] (by simp) (by simp)

/-- Counterexample to the midpoint part of the constant-group claim: for the
constant Asymmetric group with value 5 at 8 bits, quantize returns -128,
the bottom of the integer domain, which is not a midpoint code of
[-128, 127] under any reading (-1 or 0). -/
theorem c2_midpoint_counterexample :
    asymQuantize 8 (asymParamsOfStats 8 5 5) 5 = -128 ∧
    ¬ ((-128 : ℤ) = 0 ∨ (-128 : ℤ) = -1) := by
  constructor
  · norm_num [asymQuantize, asymParamsOfStats, toInt32, toInt8, clampQ, q_min, q_max]
  · decide

/-- For the Symmetric and Asymmetric modes at 4 or 8 bits, an input whose
affine-transformed value lies above q_max quantizes to exactly q_max, and one
whose transformed value lies below q_min quantizes to exactly q_min: the
clamp happens before the int8 cast, so the boundary is hit without wrapping.
(The IntegerSymmetric mode has no clamp and is excluded; see the
counterexample.) -/
theorem c3_clamped_modes (numBits : ℕ) (hb : numBits = 4 ∨ numBits = 8)
    (ps : SymParams) (pa : AsymParams) (v : ℚ) :
    ((q_max numBits : ℚ) < v * ps.scale → symQuantize numBits ps v = q_max numBits) ∧
    (v * ps.scale < (q_min numBits : ℚ) → symQuantize numBits ps v = q_min numBits) ∧
    ((q_max numBits : ℚ) < v * pa.scale + pa.offset →
      asymQuantize numBits pa v = q_max numBits) ∧
    (v * pa.scale + pa.offset < (q_min numBits : ℚ) →
      asymQuantize numBits pa v = q_min numBits) := by
  have hq1 : -128 ≤ q_min numBits := by rcases hb with rfl | rfl <;> decide
  have hq2 : q_max numBits ≤ 127 := by rcases hb with rfl | rfl <;> decide
  have hq3 : q_min numBits ≤ q_max numBits := by rcases hb with rfl | rfl <;> decide
  have hq4 : (0 : ℤ) ≤ q_max numBits := by rcases hb with rfl | rfl <;> decide
  have hq5 : q_min numBits ≤ 0 := by rcases hb with rfl | rfl <;> decide
  refine ⟨fun h => ?_, fun h => ?_, fun h => ?_, fun h => ?_⟩
  · exact clamp_toInt8_high _ _ _ hq1 hq2 hq3 (toInt32_ge _ _ hq4 h)
  · exact clamp_toInt8_low _ _ _ hq1 hq2 hq3 (toInt32_le _ _ hq5 h)
  · exact clamp_toInt8_high _ _ _ hq1 hq2 hq3 (toInt32_ge _ _ hq4 h)
  · exact clamp_toInt8_low _ _ _ hq1 hq2 hq3 (toInt32_le _ _ hq5 h)

/-- Witness for c3_clamped_modes: at 8 bits with scale 64, input 3 transforms
to 192 > 127 and quantizes to q_max, input -3 transforms to -192 < -128 and
quantizes to q_min, in both clamped modes. -/
theorem c3_clamped_modes_witness :
    symQuantize 8 ⟨64⟩ 3 = q_max 8 ∧ symQuantize 8 ⟨64⟩ (-3) = q_min 8 ∧
    asymQuantize 8 ⟨64, 0⟩ 3 = q_max 8 ∧ asymQuantize 8 ⟨64, 0⟩ (-3) = q_min 8 :=
  ⟨(c3_clamped_modes 8 (Or.inr rfl) ⟨64⟩ ⟨64, 0⟩ 3).1 (by norm_num [q_max]),
   ((c3_clamped_modes 8 (Or.inr rfl) ⟨64⟩ ⟨64, 0⟩ (-3)).2).1 (by norm_num [q_min]),
   (((c3_clamped_modes 8 (Or.inr rfl) ⟨64⟩ ⟨64, 0⟩ 3).2).2).1 (by norm_num [q_max]),
   (((c3_clamped_modes 8 (Or.inr rfl) ⟨64⟩ ⟨64, 0⟩ (-3)).2).2).2 (by norm_num [q_min])⟩

/-- Counterexample to clamping in the IntegerSymmetric mode: at 8 bits with
integer scale 1 (from stats.max = 1), the input 2 transforms to
2 * 127 / 1 = 254 > q_max = 127, yet quantize returns -2 — the unclamped 254
wrapped by the int8 cast — which is neither boundary code. -/
theorem c3_integer_symmetric_counterexample :
    intSymQuantize 8 (intSymParamsOfStats 1) 2 = -2 ∧
    (q_max 8 : ℚ) < 2 * (q_max 8 : ℚ) / (((intSymParamsOfStats 1).scale : ℤ) : ℚ) ∧
    (-2 : ℤ) ≠ q_max 8 ∧ (-2 : ℤ) ≠ q_min 8 := by
  refine ⟨?_, ?_, ?_, ?_⟩ <;>
    norm_num [intSymQuantize, intSymParamsOfStats, toInt32, toInt8, q_min, q_max]

/-- The 8-bit Symmetric end-to-end scenario of the spec, on the group
[1.0, -2.0, 0.5, -0.25] staged as the two half2 pairs (1, -2) and
(1/2, -1/4): the finalized max-abs statistic is 2, the derived scale is 64,
the stored parameter record is the inverse scale 1/64 = 0.015625, and the
quantized codes are 64, -128, 32, -16. -/
theorem c6_symmetric_scenario :
    symStatsFinalize [(1, -2), (1/2, -1/4)] = some 2 ∧
    (symParamsOfStats 8 2).scale = 64 ∧
    symStore (symParamsOfStats 8 2) (fun _ => ParamWord.f 0) 0 0 = ParamWord.f (1/64) ∧
    (1 / 64 : ℚ) = 0.015625 ∧
    symQuantize 8 (symParamsOfStats 8 2) 1 = 64 ∧
    symQuantize 8 (symParamsOfStats 8 2) (-2) = -128 ∧
    symQuantize 8 (symParamsOfStats 8 2) (1/2) = 32 ∧
    symQuantize 8 (symParamsOfStats 8 2) (-1/4) = -16 := by
  refine ⟨?_, ?_, ?_, ?_, ?_, ?_, ?_, ?_⟩ <;>
    norm_num [symStatsFinalize, symStatsScan, symStatsUpdate, laneMax, wmax,
      symParamsOfStats, symStore, symQuantize, toInt32, toInt8, clampQ,
      q_min, q_max, Function.update, max_def, abs_of_nonneg, abs_of_nonpos]

/-- The Asymmetric 8-bit end-to-end scenario of the spec, on the group
[0.0, 4.0] staged as the half2 pair (0, 4): finalized statistics are
max = 4 and min = 0, scale = 256 / 4 = 64, offset = -128 - 0 * 64 = -128,
quantize(0) = -128, and quantize(4) truncates 4 * 64 - 128 = 128 and clamps
it to 127. -/
theorem c7_asymmetric_scenario :
    asymStatsFinalize [(0, 4)] = (some 4, some 0) ∧
    (asymParamsOfStats 8 4 0).scale = 64 ∧
    (asymParamsOfStats 8 4 0).offset = -128 ∧
    asymQuantize 8 (asymParamsOfStats 8 4 0) 0 = -128 ∧
    asymQuantize 8 (asymParamsOfStats 8 4 0) 4 = 127 := by
  refine ⟨?_, ?_, ?_, ?_, ?_⟩ <;>
    norm_num [asymStatsFinalize, asymStatsScan, asymStatsUpdate, laneMax, laneMin,
      wmax, wmin, asymParamsOfStats, asymQuantize, toInt32, toInt8, clampQ,
      q_min, q_max]

/-- In 4-bit mode the _chunk kernel emits one byte per 2 elements: for each
consecutive input pair the packed byte carries the lower-index element's code
in the low nibble and the higher-index element's code in the high nibble
(each as its 4-bit two's complement residue); in 8-bit mode it emits one byte
per element. -/
theorem c4_packing_layout (q : ℚ → ℤ) (data : ℕ → ℚ) :
    chunkOut 4 q data =
      [packByte (q (data 1)) (q (data 0)), packByte (q (data 3)) (q (data 2)),
       packByte (q (data 5)) (q (data 4)), packByte (q (data 7)) (q (data 6))] ∧
    (∀ hi lo : ℤ, lowNibble (packByte hi lo) = lo % 16 ∧
      highNibble (packByte hi lo) = hi % 16) ∧
    chunkOut 8 q data =
      [toByte (q (data 0)), toByte (q (data 1)), toByte (q (data 2)),
       toByte (q (data 3)), toByte (q (data 4)), toByte (q (data 5)),
       toByte (q (data 6)), toByte (q (data 7))] := by
  refine ⟨rfl, fun hi lo => ⟨?_, ?_⟩, rfl⟩
  · unfold lowNibble packByte
    omega
  · unfold highNibble packByte
    omega

/-- The store members write exactly one parameter record per group at the
mode's stride: Symmetric one float 1/scale at the group index,
IntegerSymmetric its raw integer scale at the group index, Asymmetric the
two floats 1/scale and offset at indices 2g and 2g + 1; every other buffer
cell is left unchanged. -/
theorem c5_store_layout (ps : SymParams) (pint : IntSymParams) (pa : AsymParams)
    (pb : ℕ → ParamWord) (g j : ℕ) :
    symStore ps pb g g = ParamWord.f (1 / ps.scale) ∧
    (j ≠ g → symStore ps pb g j = pb j) ∧
    intSymStore pint pb g g = ParamWord.i pint.scale ∧
    (j ≠ g → intSymStore pint pb g j = pb j) ∧
    asymStore pa pb g (2 * g) = ParamWord.f (1 / pa.scale) ∧
    asymStore pa pb g (2 * g + 1) = ParamWord.f pa.offset ∧
    (j ≠ 2 * g → j ≠ 2 * g + 1 → asymStore pa pb g j = pb j) := by
  refine ⟨?_, fun h => ?_, ?_, fun h => ?_, ?_, ?_, fun h1 h2 => ?_⟩ <;>
    simp [symStore, intSymStore, asymStore, Function.update, *]

/-- Witness for c5_store_layout at group index 0 with untouched index 2. -/
theorem c5_store_layout_witness :
    symStore ⟨2⟩ (fun _ => ParamWord.f 0) 0 0 = ParamWord.f (1 / 2) ∧
    symStore ⟨2⟩ (fun _ => ParamWord.f 0) 0 2 = ParamWord.f 0 ∧
    intSymStore ⟨3⟩ (fun _ => ParamWord.f 0) 0 0 = ParamWord.i 3 ∧
    intSymStore ⟨3⟩ (fun _ => ParamWord.f 0) 0 2 = ParamWord.f 0 ∧
    asymStore ⟨4, 5⟩ (fun _ => ParamWord.f 0) 0 0 = ParamWord.f (1 / 4) ∧
    asymStore ⟨4, 5⟩ (fun _ => ParamWord.f 0) 0 1 = ParamWord.f 5 ∧
    asymStore ⟨4, 5⟩ (fun _ => ParamWord.f 0) 0 2 = ParamWord.f 0 :=
  ⟨(c5_store_layout ⟨2⟩ ⟨3⟩ ⟨4, 5⟩ (fun _ => ParamWord.f 0) 0 2).1,
   (c5_store_layout ⟨2⟩ ⟨3⟩ ⟨4, 5⟩ (fun _ => ParamWord.f 0) 0 2).2.1 (by decide),
   (c5_store_layout ⟨2⟩ ⟨3⟩ ⟨4, 5⟩ (fun _ => ParamWord.f 0) 0 2).2.2.1,
   (c5_store_layout ⟨2⟩ ⟨3⟩ ⟨4, 5⟩ (fun _ => ParamWord.f 0) 0 2).2.2.2.1 (by decide),
   (c5_store_layout ⟨2⟩ ⟨3⟩ ⟨4, 5⟩ (fun _ => ParamWord.f 0) 0 2).2.2.2.2.1,
   (c5_store_layout ⟨2⟩ ⟨3⟩ ⟨4, 5⟩ (fun _ => ParamWord.f 0) 0 2).2.2.2.2.2.1,
   (c5_store_layout ⟨2⟩ ⟨3⟩ ⟨4, 5⟩ (fun _ => ParamWord.f 0) 0 2).2.2.2.2.2.2
     (by decide) (by decide)⟩

/-- In 4-bit mode the Symmetric and Asymmetric quantize members always land in
[-8, 7] (the clamp precedes the int8 cast), and a code in [-8, 7] survives
the nibble pack/unpack round trip exactly, so packing two such codes into one
byte loses no information. -/
theorem c10_four_bit_codes_safe (ps : SymParams) (pa : AsymParams) (v : ℚ)
    (c0 c1 : ℤ) :
    (-8 ≤ symQuantize 4 ps v ∧ symQuantize 4 ps v ≤ 7) ∧
    (-8 ≤ asymQuantize 4 pa v ∧ asymQuantize 4 pa v ≤ 7) ∧
    (-8 ≤ c0 → c0 ≤ 7 → -8 ≤ c1 → c1 ≤ 7 →
      nibbleVal (lowNibble (packByte c1 c0)) = c0 ∧
      nibbleVal (highNibble (packByte c1 c0)) = c1) := by
  have hmin : q_min 4 = -8 := by decide
  have hmax : q_max 4 = 7 := by decide
  refine ⟨?_, ?_, fun h0 h1 h2 h3 => ⟨?_, ?_⟩⟩
  · rw [symQuantize, hmin, hmax]
    unfold toInt8 clampQ
    omega
  · rw [asymQuantize, hmin, hmax]
    unfold toInt8 clampQ
    omega
  · simp only [nibbleVal, lowNibble, highNibble, packByte]
    split_ifs <;> omega
  · simp only [nibbleVal, lowNibble, highNibble, packByte]
    split_ifs <;> omega

/-- Witness for c10_four_bit_codes_safe with scale-1 parameters, input 100
(which clamps), and the code pair (-3, 5). -/
theorem c10_four_bit_codes_safe_witness :
    (-8 ≤ symQuantize 4 ⟨1⟩ 100 ∧ symQuantize 4 ⟨1⟩ 100 ≤ 7) ∧
    (-8 ≤ asymQuantize 4 ⟨1, 0⟩ 100 ∧ asymQuantize 4 ⟨1, 0⟩ 100 ≤ 7) ∧
    (nibbleVal (lowNibble (packByte 5 (-3))) = -3 ∧
      nibbleVal (highNibble (packByte 5 (-3))) = 5) :=
  ⟨(c10_four_bit_codes_safe ⟨1⟩ ⟨1, 0⟩ 100 (-3) 5).1,
   (c10_four_bit_codes_safe ⟨1⟩ ⟨1, 0⟩ 100 (-3) 5).2.1,
   (c10_four_bit_codes_safe ⟨1⟩ ⟨1, 0⟩ 100 (-3) 5).2.2
     (by decide) (by decide) (by decide) (by decide)⟩

theorem storeBytes_untouched (bytes : List ℤ) (addr a : ℕ) (out : ℕ → ℤ)
    (h : a < addr ∨ addr + bytes.length ≤ a) : storeBytes addr bytes out a = out a := by
  induction bytes generalizing addr out with
  | nil => rfl
  | cons b rest ih =>
      have hlen : (b :: rest).length = rest.length + 1 := List.length_cons b rest
      have h' : a < addr + 1 ∨ addr + 1 + rest.length ≤ a := by omega
      have hne : a ≠ addr := by omega
      rw [storeBytes, ih (addr + 1) (Function.update out addr b) h']
      exact Function.update_noteq hne b out

theorem localArrayChunks_untouched (numBits T t g epg : ℕ) (q : ℚ → ℤ)
    (buf : ℕ → ℚ) (chunks : List ℕ) (out : ℕ → ℤ) (a : ℕ)
    (h : ∀ i ∈ chunks,
      t * h_per_load + i * quantStride numBits T * num_ele_int8 numBits < epg →
      a < baseOffset numBits g epg t + i * quantStride numBits T ∨
      baseOffset numBits g epg t + i * quantStride numBits T +
        (chunkOut numBits q fun k => buf (i * h_per_load + k)).length ≤ a) :
    localArrayChunks numBits T t g epg q buf chunks out a = out a := by
  induction chunks generalizing out with
  | nil => rfl
  | cons i rest ih =>
      rw [localArrayChunks, ih _ fun j hj => h j (List.mem_cons_of_mem i hj)]
      split
      case isTrue hg => exact storeBytes_untouched _ _ _ _ (h i (List.mem_cons_self i rest) hg)
      case isFalse => rfl

theorem chunkOut_length (numBits : ℕ) (hb : numBits = 4 ∨ numBits = 8)
    (q : ℚ → ℤ) (data : ℕ → ℚ) :
    (chunkOut numBits q data).length = num_int8_out numBits := by
  rcases hb with rfl | rfl <;>
    simp [chunkOut, num_ele_int8, num_int8_out, chunkElems, h_per_load, granularity]

/-- In the packing loop of the precomputed-parameters local_array, only a
chunk whose starting element offset lies below elems_per_group can write: an
output cell outside every guarded chunk's byte range — in particular every
cell of a chunk whose start offset is at or beyond elems_per_group — is left
exactly as the caller provided it, for every elems_per_group. -/
theorem c8_skipped_chunks_untouched (numBits T t g epg nC : ℕ)
    (hb : numBits = 4 ∨ numBits = 8) (q : ℚ → ℤ) (buf : ℕ → ℚ) (out : ℕ → ℤ)
    (a : ℕ)
    (h : ∀ i, i < nC →
      t * h_per_load + i * quantStride numBits T * num_ele_int8 numBits < epg →
      a < baseOffset numBits g epg t + i * quantStride numBits T ∨
      baseOffset numBits g epg t + i * quantStride numBits T + num_int8_out numBits ≤ a) :
    localArrayPre numBits T t g epg nC q buf out a = out a := by
  unfold localArrayPre
  apply localArrayChunks_untouched
  intro i hi hg
  rw [chunkOut_length numBits hb]
  exact h i (List.mem_range.mp hi) hg

/-- Witness for c8_skipped_chunks_untouched: one unit, 8-bit, two chunks,
elems_per_group = 8; the second chunk starts at element offset 8, is skipped,
and its first output cell (address 8) keeps the caller value 5. -/
theorem c8_skipped_chunks_untouched_witness :
    localArrayPre 8 1 0 0 8 2 (fun _ => 0) (fun _ => 0) (fun _ => 5) 8 = 5 :=
  c8_skipped_chunks_untouched 8 1 0 0 8 2 (Or.inr rfl)
    (fun _ => 0) (fun _ => 0) (fun _ => 5) 8 (by decide)

/-- Counterexample to the untyped reading that all output bytes beyond the
logical element count stay caller-provided: with 8-bit codes, one unit and
elems_per_group = 4 (not a multiple of the 8-element chunk width), the single
chunk starts at offset 0 < 4 and is stored full-width, so output byte 4 —
beyond the logical element count — is overwritten (7 instead of the caller's
0). -/
theorem c8_partial_chunk_counterexample :
    localArrayPre 8 1 0 0 4 1 (fun _ => 7) (fun _ => 0) (fun _ => 0) 4 = 7 ∧
    (7 : ℤ) ≠ 0 := by
  constructor
  · rfl
  · decide

/-- The _local_serial_reduce helper for one unit: fold the mode's update over
the unit's numChunks * h2_per_load half2 values of local_buffer, in index
order, starting from the constructor state.  The buffer is half-indexed
(matching the reinterpret_cast view used by _chunk); half2 j is the pair of
halves 2j and 2j + 1.  The template is generic in qType, so the update and
its initial state are parameters. -/
def localSerialReduce {S : Type} (init : S) (upd : S → ℚ × ℚ → S) (nC : ℕ)
    (buf : ℕ → ℚ) : S :=
  (List.range (nC * h2_per_load)).foldl (fun s j => upd s (buf (2 * j), buf (2 * j + 1))) init

/-- The _get_params helper at block level: stats.reduce finalizes the units'
accumulated statistics into one group-wide value (every unit observes the
same result), and the Params constructor is applied to it once. -/
def getParams {S F P : Type} (finalize : List S → F) (mk : F → P)
    (statsList : List S) : P :=
  mk (finalize statsList)

/-- The precomputed-parameters local_array at block level: unit 0 stores the
parameter record at the group index, and every unit t < T runs its packing
loop over the shared output buffer (the units' address ranges are disjoint,
so the fold order does not matter; the model folds in unit order). -/
def localArrayPreBlock {P : Type} (numBits T g epg nC : ℕ) (quantizeP : P → ℚ → ℤ)
    (storeP : P → (ℕ → ParamWord) → ℕ → (ℕ → ParamWord)) (params : P)
    (bufs : ℕ → ℕ → ℚ) (paramBuf : ℕ → ParamWord) (out : ℕ → ℤ) :
    (ℕ → ParamWord) × (ℕ → ℤ) :=
  (storeP params paramBuf g,
   (List.range T).foldl
     (fun o t => localArrayPre numBits T t g epg nC (quantizeP params) (bufs t) o) out)

/-- The compute-parameters entry point of local_array, mirroring the source:
each unit serially reduces its own chunks into GroupStats, _get_params
finalizes the statistics and constructs the Params, and the precomputed
path is invoked on the same tile with them. -/
def localArrayCompute {S F P : Type} (numBits T g epg nC : ℕ) (init : S)
    (upd : S → ℚ × ℚ → S) (finalize : List S → F) (mk : F → P)
    (quantizeP : P → ℚ → ℤ)
    (storeP : P → (ℕ → ParamWord) → ℕ → (ℕ → ParamWord))
    (bufs : ℕ → ℕ → ℚ) (paramBuf : ℕ → ParamWord) (out : ℕ → ℤ) :
    (ℕ → ParamWord) × (ℕ → ℤ) :=
  let group_stats := (List.range T).map fun t => localSerialReduce init upd nC (bufs t)
  let params := getParams finalize mk group_stats
  localArrayPreBlock numBits T g epg nC quantizeP storeP params bufs paramBuf out

/-- The composition described by the spec, stated independently: a serial scan
over all of each unit's chunks in index order building GroupStats via update,
followed by one reduction and one Params construction, followed by the
precomputed-parameters local_array applied to the same tile with the derived
Params — two passes over the tile in total. -/
def twoPassComposition {S F P : Type} (numBits T g epg nC : ℕ) (init : S)
    (upd : S → ℚ × ℚ → S) (finalize : List S → F) (mk : F → P)
    (quantizeP : P → ℚ → ℤ)
    (storeP : P → (ℕ → ParamWord) → ℕ → (ℕ → ParamWord))
    (bufs : ℕ → ℕ → ℚ) (paramBuf : ℕ → ParamWord) (out : ℕ → ℤ) :
    (ℕ → ParamWord) × (ℕ → ℤ) :=
  localArrayPreBlock numBits T g epg nC quantizeP storeP
    (mk (finalize ((List.range T).map fun t => localSerialReduce init upd nC (bufs t))))
    bufs paramBuf out

/-- The compute-parameters entry point of local_array equals the composition
of a per-unit serial statistics scan in chunk-index order, one reduction plus
one Params construction, and the precomputed-parameters packing pass over the
same tile: both produce identical packed output and parameter records, for
every mode (the statistics type, update, finalization, constructor, quantize
and store are arbitrary parameters, as in the C++ templates). -/
theorem c9_compute_path_is_two_pass {S F P : Type} (numBits T g epg nC : ℕ)
    (init : S) (upd : S → ℚ × ℚ → S) (finalize : List S → F) (mk : F → P)
    (quantizeP : P → ℚ → ℤ)
    (storeP : P → (ℕ → ParamWord) → ℕ → (ℕ → ParamWord))
    (bufs : ℕ → ℕ → ℚ) (paramBuf : ℕ → ParamWord) (out : ℕ → ℤ) :
    localArrayCompute numBits T g epg nC init upd finalize mk quantizeP storeP
        bufs paramBuf out =
      twoPassComposition numBits T g epg nC init upd finalize mk quantizeP storeP
        bufs paramBuf out := rfl

end Quantize
